import Mathlib

/-!
Verification development for the PolyWeather forecast-to-decision core.

The Python sources are shallowly embedded: Python floats are modelled as
exact rationals (`ℚ`) except where IEEE special values are the point of a
claim, in which case an explicit extended-float type `F` is used; Python
dicts are association lists in insertion order; fallible code returns
`Except`.
-/

namespace PolyWeather

/-! ## Python rounding

`round(x, d)` in Python rounds half to even.  `roundHalfEven` rounds a
rational to the nearest integer, ties to the even integer; `pyround q d`
is `round(q, d)` on the exact rational value. -/

/-- Kernel-computable floor of a rational (the denominator is
positive, so floor division of the numerator by it is the floor). -/
def qfloor (q : ℚ) : ℤ := Int.fdiv q.num (q.den : ℤ)

/-- Kernel-computable absolute value of a rational. -/
def qabs (q : ℚ) : ℚ := if q < 0 then -q else q

/-- Kernel-computable maximum of two rationals. -/
def qmax (a b : ℚ) : ℚ := if a < b then b else a

def roundHalfEven (q : ℚ) : ℤ :=
  let f : ℤ := qfloor q
  let r : ℚ := q - (f : ℚ)
  if r < 1/2 then f
  else if r > 1/2 then f + 1
  else if f % 2 = 0 then f else f + 1

def pyround (q : ℚ) (d : ℕ) : ℚ :=
  (roundHalfEven (q * (10 : ℚ) ^ d) : ℚ) / (10 : ℚ) ^ d

/-! ## PaperTrader (src/src/trading/paper_trader.py)

State of the simulated ledger.  `positions` is the dict
`position_id -> position` in insertion order, `history` the list of
closed positions, `trades` the raw BUY/SELL records, `balance` the cash
balance.  Timestamps are opaque strings supplied by the caller. -/

structure Position where
  market_id : String
  city : String
  option : String
  side : String
  entry_price : ℚ
  shares : ℚ
  cost_usd : ℚ
  current_price : ℚ
  pnl_usd : ℚ
  pnl_pct : ℚ
  status : String
  opened_at : String
  closed_at : Option String
  deriving Repr, DecidableEq

structure Trade where
  kind : String
  city : String
  option : String
  side : String
  price : ℚ
  amount : ℚ
  time : Option String
  deriving Repr, DecidableEq

structure TraderState where
  positions : List (String × Position)
  history : List Position
  trades : List Trade
  balance : ℚ
  deriving Repr, DecidableEq

/-- `PaperTrader.open_position`.  `price` is in integer cents as in the
source; `now` stands for the formatted UTC+8 timestamp.  Returns the
success flag together with the new state; on a refusal the state is
returned unchanged. -/
def open_position (s : TraderState) (market_id city option : String)
    (price : ℤ) (side : String) (amount_usd : ℚ) (now : String) :
    Bool × TraderState :=
  let price_decimal : ℚ := (price : ℚ) / 100
  if s.balance < amount_usd then (false, s)
  else
    let shares : ℚ := if price_decimal > 0 then amount_usd / price_decimal else 0
    let position_id := market_id ++ "_" ++ side
    if (s.positions.lookup position_id).isSome then (false, s)
    else
      let new_pos : Position :=
        { market_id := market_id, city := city, option := option, side := side
          entry_price := (price : ℚ), shares := shares, cost_usd := amount_usd
          current_price := (price : ℚ), pnl_usd := 0, pnl_pct := 0
          status := "OPEN", opened_at := now, closed_at := none }
      let tr : Trade :=
        { kind := "BUY", city := city, option := option, side := side
          price := (price : ℚ), amount := amount_usd, time := some now }
      (true,
        { positions := s.positions ++ [(position_id, new_pos)]
          history := s.history
          trades := s.trades ++ [tr]
          balance := s.balance - amount_usd })

/-- One snapshot entry: `current_prices[m_id]` is a dict; its `"price"`
key may be absent, in which case the source defaults to `50`. -/
abbrev PriceSnapshot := List (String × Option ℚ)

/-- The side-adjusted current price of a position under snapshot price
`p` (in cents): inverted for the NO side. -/
def adjPrice (side : String) (p : ℚ) : ℚ :=
  if side = "NO" then 100 - p else p

/-- The per-position body of the `update_pnl` loop: returns the updated
position (pnl fields recomputed, and status moved to CLOSED when the
side-adjusted price reaches `≥ 99.5` or `≤ 0.5`) together with the
"finished" flag.  Positions that are not OPEN, or whose market is not in
the snapshot, are returned unchanged with the flag `false`. -/
def stepPos (cur : PriceSnapshot) (now : String) (p : String × Position) :
    (String × Position) × Bool :=
  let pos := p.2
  if pos.status ≠ "OPEN" then (p, false)
  else
    match cur.lookup pos.market_id with
    | none => (p, false)
    | some priceOpt =>
      let cp : ℚ := adjPrice pos.side (priceOpt.getD 50)
      let value : ℚ := pos.shares * (cp / 100)
      let pnl : ℚ := value - pos.cost_usd
      let pnl_pct : ℚ := if pos.cost_usd > 0 then pnl / pos.cost_usd * 100 else 0
      let pos' : Position :=
        { pos with current_price := cp, pnl_usd := pyround pnl 2
                   pnl_pct := pyround pnl_pct 2 }
      if cp ≥ 995/10 ∨ cp ≤ 1/2 then
        ((p.1, { pos' with status := "CLOSED", closed_at := some now }), true)
      else
        ((p.1, pos'), false)

/-- The mark-to-market value credited back for a finished position:
`shares * (current_price / 100)` with `current_price` already
side-adjusted by `stepPos`. -/
def finValue (pos : Position) : ℚ := pos.shares * (pos.current_price / 100)

/-- The SELL (settlement) record appended for a finished position. -/
def sellTrade (pos : Position) : Trade :=
  { kind := "SELL", city := pos.city, option := pos.option, side := pos.side
    price := pos.current_price
    amount := pyround (pos.shares * (pos.current_price / 100)) 2
    time := pos.closed_at }

/-- `PaperTrader.update_pnl`: recompute every OPEN position against the
snapshot, close (move to history, credit the balance, record a SELL)
those whose side-adjusted price reached `≥ 99.5` or `≤ 0.5`, and drop
them from the open-position map. -/
def update_pnl (s : TraderState) (cur : PriceSnapshot) (now : String) :
    TraderState :=
  let processed := s.positions.map (stepPos cur now)
  let finished := (processed.filter (fun q => q.2)).map (fun q => q.1.2)
  let kept := (processed.filter (fun q => !q.2)).map (fun q => q.1)
  { positions := kept
    history := s.history ++ finished
    trades := s.trades ++ finished.map sellTrade
    balance := s.balance + (finished.map finValue).sum }

/-- The number of closed-position records in the ledger history for a
given `(market, side)` pair. -/
def histCount (s : TraderState) (mid side : String) : ℕ :=
  (s.history.filter (fun p => p.market_id == mid && p.side == side)).length

/-- The closed positions an `update_pnl` pass produces from a segment
of the open-position list (several positions may settle in the same
snapshot). -/
def finishedOf (cur : PriceSnapshot) (now : String)
    (l : List (String × Position)) : List Position :=
  ((l.map (stepPos cur now)).filter (fun q => q.2)).map (fun q => q.1.2)

/-- The total mark-to-market value credited back for a segment's
closing positions in one `update_pnl` pass. -/
def finValueSum (cur : PriceSnapshot) (now : String)
    (l : List (String × Position)) : ℚ :=
  ((finishedOf cur now l).map finValue).sum

/-! ## Dynamic Ensemble Blending (src/src/analysis/deb_algorithm.py)

`current_forecasts` is the dict `model -> float|None`; history data is
`city -> date -> {forecasts, actual_high}`.  Dates are modelled as
naturals carrying the same total order as the source's `YYYY-MM-DD`
strings; `today` (`datetime.now().strftime(...)`) is a parameter. -/

abbrev Forecasts := List (String × Option ℚ)

structure DayRec where
  forecasts : List (String × Option ℚ)
  actual_high : Option ℚ
  deriving Repr, DecidableEq

abbrev CityData := List (ℕ × DayRec)

abbrev HistData := List (String × CityData)

/-- `[v for v in current_forecasts.values() if v is not None]`. -/
def validVals (cf : Forecasts) : List ℚ := cf.filterMap (·.2)

/-- Stable descending insertion used to model
`sorted(city_data.keys(), reverse=True)`. -/
def insertDesc (n : ℕ) : List ℕ → List ℕ
  | [] => [n]
  | m :: ms => if n ≥ m then n :: m :: ms else m :: insertDesc n ms

def sortDesc : List ℕ → List ℕ
  | [] => []
  | n :: ns => insertDesc n (sortDesc ns)

/-- `errors = {model: [] for model in current_forecasts.keys()}`. -/
def initErrors (cf : Forecasts) : List (String × List ℚ) :=
  cf.map (fun p => (p.1, []))

/-- One historical day's contribution: for every model of
`current_forecasts` present with a non-null value in that day's
`forecasts`, append `|forecast - actual|` to its error list. -/
def addDay (rec : DayRec) (actual : ℚ) (errors : List (String × List ℚ)) :
    List (String × List ℚ) :=
  errors.map (fun e =>
    match (rec.forecasts.lookup e.1).bind id with
    | some pf => (e.1, e.2 ++ [qabs (pf - actual)])
    | none => e)

/-- The date scan of `calculate_dynamic_weights`: walk `dates`
most-recent-first, skip today, skip days without an `actual_high`,
accumulate per-model absolute errors, and stop once `lookback` valid
days have been used.  Returns the error lists and `days_used`.  The
`dates` argument is always the (sorted) key list of `cityData`, so the
lookup default is never hit on reachable inputs. -/
def accumErrors (cityData : CityData) (today lookback : ℕ) :
    List ℕ → ℕ → List (String × List ℚ) → (List (String × List ℚ)) × ℕ
  | [], days_used, errors => (errors, days_used)
  | d :: rest, days_used, errors =>
    if d = today then accumErrors cityData today lookback rest days_used errors
    else
      match ((cityData.lookup d).getD ⟨[], none⟩).actual_high with
      | none => accumErrors cityData today lookback rest days_used errors
      | some a =>
        if days_used + 1 ≥ lookback then
          (addDay ((cityData.lookup d).getD ⟨[], none⟩) a errors,
           days_used + 1)
        else
          accumErrors cityData today lookback rest (days_used + 1)
            (addDay ((cityData.lookup d).getD ⟨[], none⟩) a errors)

/-- The error-accumulation stage of `calculate_dynamic_weights` for one
city: error lists and number of valid days used. -/
def errorsAndDays (data : HistData) (city_name : String) (cf : Forecasts)
    (today lookback : ℕ) : (List (String × List ℚ)) × ℕ :=
  let cityData := (data.lookup city_name).getD []
  accumErrors cityData today lookback (sortDesc (cityData.map (·.1))) 0
    (initErrors cf)

/-- Per-model MAE: mean of the accumulated absolute errors, or the
default `2.0` for a model with no historical samples. -/
def maesOf (errors : List (String × List ℚ)) : List (String × ℚ) :=
  errors.map (fun e =>
    (e.1, if e.2 = [] then 2 else e.2.sum / (e.2.length : ℚ)))

/-- `{m: 1.0/(mae+0.1) for m, mae in maes.items() if
current_forecasts.get(m) is not None}`. -/
def inverseErrorsOf (cf : Forecasts) (maes : List (String × ℚ)) :
    List (String × ℚ) :=
  (maes.filter (fun p => ((cf.lookup p.1).bind id).isSome)).map
    (fun p => (p.1, 1 / (p.2 + 1/10)))

/-- The ensemble weights: inverse errors normalized by their sum. -/
def debWeights (cf : Forecasts) (maes : List (String × ℚ)) :
    List (String × ℚ) :=
  let inv := inverseErrorsOf cf maes
  let total_inv := (inv.map (·.2)).sum
  inv.map (fun p => (p.1, p.2 / total_inv))

/-- `blended_high = Σ current_forecasts[m] * weights[m]`. -/
def debBlended (cf : Forecasts) (weights : List (String × ℚ)) : ℚ :=
  (weights.map (fun p => (((cf.lookup p.1).bind id).getD 0) * p.2)).sum

/-- Stable descending sort by weight, modelling
`sorted(weights.items(), key=..., reverse=True)`. -/
def insertWDesc (x : String × ℚ) : List (String × ℚ) → List (String × ℚ)
  | [] => [x]
  | y :: ys => if x.2 ≥ y.2 then x :: y :: ys else y :: insertWDesc x ys

def sortWDesc : List (String × ℚ) → List (String × ℚ)
  | [] => []
  | x :: xs => insertWDesc x (sortWDesc xs)

/-- The rationale tag returned alongside the blended value (the source
formats these as display strings; only their identity matters here). -/
inductive BlendLabel where
  | noData
  | equalNoHistory
  | equalFew (days_used : ℕ)
  | weightAnomaly
  | weighted (top3 : List (String × ℚ × ℚ))
  deriving Repr, DecidableEq

inductive DebErr where
  | zeroDivision
  deriving Repr, DecidableEq

/-- `calculate_dynamic_weights`.  The `< 2` valid-days fallback divides
by `len(valid_vals)` without an emptiness guard, so that branch is
fallible (`ZeroDivisionError`); the no-history branch checks emptiness
first and returns `(None, ...)` instead. -/
def calculate_dynamic_weights (data : HistData) (city_name : String)
    (current_forecasts : Forecasts) (today : ℕ) (lookback_days : ℕ) :
    Except DebErr (Option ℚ × BlendLabel) :=
  let cityData := (data.lookup city_name).getD []
  if cityData.isEmpty then
    let valid_vals := validVals current_forecasts
    if valid_vals.isEmpty then .ok (none, .noData)
    else .ok (some (pyround (valid_vals.sum / (valid_vals.length : ℚ)) 1),
              .equalNoHistory)
  else
    let ed := errorsAndDays data city_name current_forecasts today lookback_days
    if ed.2 < 2 then
      let valid_vals := validVals current_forecasts
      if valid_vals.isEmpty then .error .zeroDivision
      else .ok (some (pyround (valid_vals.sum / (valid_vals.length : ℚ)) 1),
                .equalFew ed.2)
    else
      let maes := maesOf ed.1
      let inv := inverseErrorsOf current_forecasts maes
      let total_inv := (inv.map (·.2)).sum
      if total_inv == 0 then .ok (none, .weightAnomaly)
      else
        let weights := debWeights current_forecasts maes
        let blended := debBlended current_forecasts weights
        let sorted_models := sortWDesc weights
        .ok (some (pyround blended 1),
             .weighted ((sorted_models.take 3).map
               (fun p => (p.1, p.2, (maes.lookup p.1).getD 0))))

/-! ## Forecast history store (src/src/analysis/deb_algorithm.py,
`load_history`)

The module-level cache is the pair `(_history_cache, _history_mtime)`.
The backing file is `none` when missing; otherwise it carries its
last-modified marker and its parse result (`none` = corrupted, i.e.
`json.load` raises). -/

structure HistStore where
  cache : HistData
  mtime : ℤ
  deriving Repr, DecidableEq

structure HistFile where
  mtime : ℤ
  parsed : Option HistData
  deriving Repr, DecidableEq

/-- `load_history`: a missing file yields the empty store; an unchanged
mtime with a nonempty cache short-circuits to the cache; a successful
parse refreshes the cache; any read/parse failure falls back to the
cache when it is nonempty and to the empty store otherwise. -/
def load_history (file : Option HistFile) (st : HistStore) :
    HistData × HistStore :=
  match file with
  | none => ([], st)
  | some f =>
    if f.mtime == st.mtime && !st.cache.isEmpty then (st.cache, st)
    else
      match f.parsed with
      | some d => (d, ⟨d, f.mtime⟩)
      | none => (if st.cache.isEmpty then [] else st.cache, st)

/-! ## Orderbook analyzer (src/src/analysis/orderbook_analyzer.py) -/

structure BookOrder where
  price : ℚ
  size : ℚ
  deriving Repr, DecidableEq

structure Orderbook where
  bids : List BookOrder
  asks : List BookOrder
  deriving Repr, DecidableEq

inductive LiqLevel where
  | depleted
  | thin
  | normalLvl
  | ample
  deriving Repr, DecidableEq

/-- Depth over the first three levels of one side
(`sum(float(o.get("size", 0)) for o in orders[:3])`). -/
def depth3 (orders : List BookOrder) : ℚ :=
  ((orders.take 3).map (·.size)).sum

/-- `OrderbookAnalyzer.assess_liquidity`. -/
def assess_liquidity (ob : Orderbook) (side : String) : LiqLevel × ℚ :=
  let orders := if side = "ask" then ob.asks else ob.bids
  if orders.isEmpty then (.depleted, 0)
  else
    let depth := depth3 orders
    if depth < 50 then (.thin, depth)
    else if depth < 500 then (.normalLvl, depth)
    else (.ample, depth)

/-- Result dict of `OrderbookAnalyzer.analyze` (the source's early
return omits the price fields; they are 0 here). -/
structure ObResult where
  best_bid : ℚ
  best_ask : ℚ
  mid_price : ℚ
  spread : ℚ
  ask_depth : ℚ
  bid_depth : ℚ
  liquidity : LiqLevel
  tradeable : Bool
  imbalance : ℚ
  signal : String
  confidence : ℚ
  deriving Repr, DecidableEq

/-- The raw (pre-rounding) spread `abs(best_ask - best_bid)` of a
two-sided book. -/
def spreadOf (ob : Orderbook) : ℚ :=
  qabs ((ob.asks.headD ⟨0, 0⟩).price - (ob.bids.headD ⟨0, 0⟩).price)

/-- `OrderbookAnalyzer.analyze`. -/
def analyze (ob : Orderbook) : ObResult :=
  if ob.bids.isEmpty || ob.asks.isEmpty then
    { best_bid := 0, best_ask := 0, mid_price := 0, spread := 1
      ask_depth := 0, bid_depth := 0, liquidity := .depleted
      tradeable := false, imbalance := 0, signal := "NEUTRAL"
      confidence := 0 }
  else
    let best_bid := (ob.bids.headD ⟨0, 0⟩).price
    let best_ask := (ob.asks.headD ⟨0, 0⟩).price
    let spread := spreadOf ob
    let mid_price := (best_ask + best_bid) / 2
    let askL := assess_liquidity ob "ask"
    let bidL := assess_liquidity ob "bid"
    let is_tradeable : Bool :=
      decide (spread ≤ 1/10) && (decide (askL.2 ≥ 50) || decide (bidL.2 ≥ 50))
    let bid_volume := (ob.bids.map (·.size)).sum
    let ask_volume := (ob.asks.map (·.size)).sum
    let imbalance := if ask_volume > 0 then bid_volume / ask_volume else 0
    let sigconf : String × ℚ :=
      if is_tradeable then
        if imbalance > 5/2 then ("BULLISH", 3/4)
        else if imbalance < 2/5 then ("BEARISH", 3/4)
        else ("NEUTRAL", 1/2)
      else ("NEUTRAL", 1/10)
    { best_bid := best_bid, best_ask := best_ask, mid_price := mid_price
      spread := pyround spread 4
      ask_depth := pyround askL.2 2, bid_depth := pyround bidL.2 2
      liquidity := if askL.2 < bidL.2 then askL.1 else bidL.1
      tradeable := is_tradeable, imbalance := imbalance
      signal := sigconf.1, confidence := sigconf.2 }

/-! ## IEEE special values (for the persisted-state safety claim)

`F` is the value space of a Python float restricted to what
`open_position`/`_save_data` compute with: exact finite rationals plus
`inf`, `-inf`, `nan`, with IEEE comparison and arithmetic on the special
values. -/

inductive F where
  | fin : ℚ → F
  | pinf
  | ninf
  | nan
  deriving Repr, DecidableEq

/-- IEEE `<`: any comparison with NaN is false. -/
def flt : F → F → Bool
  | .nan, _ => false
  | _, .nan => false
  | .fin a, .fin b => decide (a < b)
  | .fin _, .pinf => true
  | .fin _, .ninf => false
  | .pinf, _ => false
  | .ninf, .ninf => false
  | .ninf, _ => true

/-- IEEE `x > 0`. -/
def fgt0 : F → Bool
  | .fin a => decide (0 < a)
  | .pinf => true
  | .ninf => false
  | .nan => false

/-- IEEE subtraction on the cases reachable here. -/
def fsub : F → F → F
  | .nan, _ => .nan
  | _, .nan => .nan
  | .fin a, .fin b => .fin (a - b)
  | .fin _, .pinf => .ninf
  | .fin _, .ninf => .pinf
  | .pinf, .pinf => .nan
  | .pinf, _ => .pinf
  | .ninf, .ninf => .nan
  | .ninf, _ => .ninf

/-- IEEE division; only nonzero finite or infinite denominators are
reachable here (the source guards the denominator with `> 0`). -/
def fdiv : F → F → F
  | .nan, _ => .nan
  | _, .nan => .nan
  | .fin a, .fin b => .fin (a / b)
  | .fin _, .pinf => .fin 0
  | .fin _, .ninf => .fin 0
  | .pinf, .fin b => if 0 ≤ b then .pinf else .ninf
  | .ninf, .fin b => if 0 ≤ b then .ninf else .pinf
  | .pinf, _ => .nan
  | .ninf, _ => .nan

def isFiniteF : F → Bool
  | .fin _ => true
  | _ => false

/-- `round(x, 2)` on a float: NaN and the infinities round to
themselves. -/
def roundF2 : F → F
  | .fin q => .fin (pyround q 2)
  | x => x

/-- `open_position` with the balance and the requested amount kept as
IEEE-style floats, following the source's control flow (balance check,
share computation, duplicate check, debit); the position/trade records
are elided because the claim concerns the persisted balance.  Returns
`(success, new balance, shares of the new position)`. -/
def open_position_f (balance : F) (position_keys : List String)
    (market_id side : String) (price : ℤ) (amount_usd : F) :
    Bool × F × F :=
  let price_decimal : F := fdiv (.fin (price : ℚ)) (.fin 100)
  if flt balance amount_usd then (false, balance, .fin 0)
  else
    let shares := if fgt0 price_decimal then fdiv amount_usd price_decimal
                  else .fin 0
    if position_keys.contains (market_id ++ "_" ++ side) then
      (false, balance, .fin 0)
    else (true, fsub balance amount_usd, shares)

/-- The balance field written by `_save_data`: `round(self.balance, 2)`. -/
def persistedBalance (balance : F) : F := roundF2 balance

/-! ## SettlementProbabilityModel (spec §4.3; not present under src/) -/

inductive Trend where
  | rising
  | falling
  | flat
  deriving Repr, DecidableEq

structure EnsembleStats where
  p10 : ℚ
  p50 : ℚ
  p90 : ℚ
  deriving Repr, DecidableEq

/-- Modelled from the spec: surrogate for the standard normal CDF used
by the settlement-probability computation (the computation itself is
absent from src/).  Any strictly-increasing sigmoid with values in
(0, 1) serves the renormalise/cap pipeline the claims are about; this is
the rational sigmoid `x ↦ 1/2 + x / (2(1+|x|))`. -/
def normCdf (x : ℚ) : ℚ := 1/2 + x / (2 * (1 + qabs x))

/-- Modelled from the spec: `sigma = (p90-p10)/2.56`, floored at 0.1. -/
def sigmaOf (st : EnsembleStats) : ℚ :=
  qmax ((st.p90 - st.p10) / (64/25)) (1/10)

/-- Modelled from the spec: the distribution center — 70% blended
anchor, 30% raw ensemble median, re-anchored to `observed+0.3` when the
observed maximum exceeds it while the trend still rises, pinned to
`observed` when the trend has turned. -/
def muOf (st : EnsembleStats) (anchor observed : ℚ) (trend : Trend) : ℚ :=
  let mu0 := 7/10 * anchor + 3/10 * st.p50
  if observed > mu0 then
    match trend with
    | .rising => observed + 3/10
    | _ => observed
  else mu0

/-- Stable descending insertion sort by probability for the settlement
table. -/
def insertPDesc (x : ℤ × ℚ) : List (ℤ × ℚ) → List (ℤ × ℚ)
  | [] => [x]
  | y :: ys => if x.2 ≥ y.2 then x :: y :: ys else y :: insertPDesc x ys

def sortPDesc : List (ℤ × ℚ) → List (ℤ × ℚ)
  | [] => []
  | x :: xs => insertPDesc x (sortPDesc xs)

/-- Modelled from the spec: the raw bucket masses — for each integer
bucket in `[round(mu)-2, round(mu)+2]` not strictly below the observed
value under round-half-up, the CDF difference between `bucket-0.5` and
`bucket+0.5`. -/
def rawMasses (st : EnsembleStats) (anchor observed : ℚ) (trend : Trend) :
    List (ℤ × ℚ) :=
  let sigma := sigmaOf st
  let mu := muOf st anchor observed trend
  let r : ℤ := qfloor (mu + 1/2)
  let obsR : ℤ := qfloor (observed + 1/2)
  let buckets := (List.range 5).map (fun i => r - 2 + (i : ℤ))
  (buckets.filter (fun b => decide (obsR ≤ b))).map
    (fun b => (b, normCdf (((b : ℚ) + 1/2 - mu) / sigma) -
                  normCdf (((b : ℚ) - 1/2 - mu) / sigma)))

/-- Keep the entries whose probability mass is at least 1%. -/
def filterGE : List (ℤ × ℚ) → List (ℤ × ℚ)
  | [] => []
  | p :: ps => if p.2 ≥ 1/100 then p :: filterGE ps else filterGE ps

/-- Modelled from the spec: the buckets surviving the 1% discard. -/
def survivors (st : EnsembleStats) (anchor observed : ℚ) (trend : Trend) :
    List (ℤ × ℚ) :=
  filterGE (rawMasses st anchor observed trend)

/-- Modelled from the spec: the settlement-probability computation,
absent from src/ (only §4.3 describes it).  Absent ensemble stats yield
the empty table; otherwise entries below 1% are discarded, the remainder
renormalized to sum to 1, sorted by probability and capped to the top
4. -/
def settlementTable (stats : Option EnsembleStats) (anchor observed : ℚ)
    (trend : Trend) : List (ℤ × ℚ) :=
  match stats with
  | none => []
  | some st =>
    let surv := survivors st anchor observed trend
    if surv.isEmpty then []
    else
      let total := (surv.map (·.2)).sum
      (sortPDesc (surv.map (fun p => (p.1, p.2 / total)))).take 4

/-! ## PositionSizer (spec §4.5)

`RiskManager.calculate_position_size` is called from main.py (with the
confidence tier already folded into `base_confidence_usd`) but the
method is absent from src/src/strategy/risk_manager.py. -/

inductive SizeReason where
  | sized
  | nearDeadline
  | dailyCapReached
  | lowRelativeVolume
  deriving Repr, DecidableEq

/-- Modelled from the spec: the time-decay multiplier
(`≤1h → 0, ≤4h → 0.4, ≤12h → 0.7, else 1.0`). -/
def time_decay (hours : ℚ) : ℚ :=
  if hours ≤ 1 then 0
  else if hours ≤ 4 then 2/5
  else if hours ≤ 12 then 7/10
  else 1

/-- Modelled from the spec: `RiskManager.calculate_position_size`, the
body missing from src/src/strategy/risk_manager.py.  Applies the
time-decay multiplier, clips to the remaining daily budget (zero-amount
with `DAILY_CAP_REACHED` when none remains), and applies the ×0.8
defensive discount when the option's relative volume is low; a zero
amount always carries its reason tag. -/
def calculate_position_size (base_confidence_usd depth hours_to_settle : ℚ)
    (is_high_relative_volume : Bool) (remaining_budget : ℚ) :
    ℚ × SizeReason :=
  let m := time_decay hours_to_settle
  if m = 0 then (0, .nearDeadline)
  else if remaining_budget ≤ 0 then (0, .dailyCapReached)
  else
    let clipped := min (base_confidence_usd * m) remaining_budget
    if is_high_relative_volume then (clipped, .sized)
    else (clipped * (4/5), .lowRelativeVolume)

/-! ## Helper lemmas -/

theorem lookup_of_mem_nodup {β : Type} :
    ∀ {l : List (String × β)}, (l.map Prod.fst).Nodup →
      ∀ {k : String} {v : β}, (k, v) ∈ l → l.lookup k = some v := by
  intro l
  induction l with
  | nil => intro _ k v hm; simp at hm
  | cons hd tl ih =>
    intro hn k v hm
    obtain ⟨k', v'⟩ := hd
    rw [List.map_cons] at hn
    have hn1 := List.nodup_cons.mp hn
    rcases List.mem_cons.mp hm with h | h
    · cases h
      simp [List.lookup]
    · have hk : (k == k') = false := by
        refine beq_eq_false_iff_ne.mpr ?_
        rintro rfl
        exact hn1.1 (List.mem_map.mpr ⟨(k, v), h, rfl⟩)
      simpa [List.lookup, hk] using ih hn1.2 h

theorem lookup_eq_none_of_not_mem {β : Type} :
    ∀ {l : List (String × β)} {k : String},
      k ∉ l.map Prod.fst → l.lookup k = none := by
  intro l
  induction l with
  | nil => intro k _; rfl
  | cons hd tl ih =>
    intro k h
    rw [List.map_cons, List.mem_cons] at h
    push_neg at h
    have hk : (k == hd.1) = false := beq_eq_false_iff_ne.mpr h.1
    simpa [List.lookup, hk] using ih h.2

theorem sum_map_div (l : List ℚ) (c : ℚ) :
    (l.map (· / c)).sum = l.sum / c := by
  induction l with
  | nil => simp
  | cons hd tl ih => simp [ih, add_div]

/-! ## Theorems -/

/-- C10: on an entity with some history but fewer than 2 valid
historical days whose current forecasts are all null, the equal-weight
fallback of `calculate_dynamic_weights` divides by the length of an
empty list and raises (`ZeroDivisionError` branch), while the
no-history branch returns a null result for the same all-null
forecasts. -/
theorem C10_few_days_fallback_div_zero :
    calculate_dynamic_weights
        [("metropolis", [(1, ⟨[("A", some 25)], some 26⟩)])]
        "metropolis" [("A", none)] 5 7 = .error .zeroDivision ∧
    calculate_dynamic_weights
        [("metropolis", [(1, ⟨[("A", some 25)], some 26⟩)])]
        "gotham" [("A", none)] 5 7 = .ok (none, .noData) := by
  constructor <;> rfl

/-- C6 counterexample: on a history whose 7-day MAEs are exactly
`{A:1, B:3, C:2}` and current forecasts `{A:28, B:30, C:29}`, the
inverse-error formula gives model A the weight `651/1223 ≈ 0.532`, not
approximately `0.47` as claimed (off by more than 0.05). -/
theorem C6_weights_example_counterexample :
    maesOf (errorsAndDays
        [("cityX", [(1, ⟨[("A", some 21), ("B", some 23), ("C", some 22)],
                        some 20⟩),
                    (2, ⟨[("A", some 21), ("B", some 23), ("C", some 22)],
                        some 20⟩)])]
        "cityX" [("A", some 28), ("B", some 30), ("C", some 29)] 9 7).1
      = [("A", 1), ("B", 3), ("C", 2)] ∧
    (debWeights [("A", some 28), ("B", some 30), ("C", some 29)]
        [("A", 1), ("B", 3), ("C", 2)]).lookup "A" = some (651/1223) ∧
    ¬ (|(651 : ℚ)/1223 - 47/100| ≤ 1/20) := by
  refine ⟨?_, ?_, by norm_num [abs_of_nonneg]⟩
  · simp +decide [maesOf, errorsAndDays, accumErrors, addDay, initErrors,
      sortDesc, insertDesc, qabs, List.lookup]
    norm_num
  · simp +decide [debWeights, inverseErrorsOf, List.lookup, List.filter]
    norm_num

/-- C6 amended: for current forecasts `{A:28, B:30, C:29}` and per-model
MAE `{A:1, B:3, C:2}`, the inverse-error weights are
`{A:651/1223 ≈ 0.53, B:231/1223 ≈ 0.19, C:341/1223 ≈ 0.28}` and the
blended value `35047/1223 ≈ 28.66` is within 0.01 of 28.65 (the
function reports it rounded to 28.7). -/
theorem C6_weights_example_amended :
    debWeights [("A", some 28), ("B", some 30), ("C", some 29)]
        [("A", 1), ("B", 3), ("C", 2)]
      = [("A", 651/1223), ("B", 231/1223), ("C", 341/1223)] ∧
    |(651 : ℚ)/1223 - 53/100| ≤ 1/100 ∧
    |(231 : ℚ)/1223 - 19/100| ≤ 1/100 ∧
    |(341 : ℚ)/1223 - 28/100| ≤ 1/100 ∧
    debBlended [("A", some 28), ("B", some 30), ("C", some 29)]
        (debWeights [("A", some 28), ("B", some 30), ("C", some 29)]
          [("A", 1), ("B", 3), ("C", 2)]) = 35047/1223 ∧
    |(35047 : ℚ)/1223 - 2865/100| ≤ 1/100 ∧
    calculate_dynamic_weights
        [("cityX", [(1, ⟨[("A", some 21), ("B", some 23), ("C", some 22)],
                        some 20⟩),
                    (2, ⟨[("A", some 21), ("B", some 23), ("C", some 22)],
                        some 20⟩)])]
        "cityX" [("A", some 28), ("B", some 30), ("C", some 29)] 9 7
      = .ok (some (287/10),
          .weighted [("A", 651/1223, 1), ("C", 341/1223, 2),
                     ("B", 231/1223, 3)]) := by
  refine ⟨?_, by norm_num [abs_of_nonneg], by norm_num [abs_le],
    by norm_num [abs_le], ?_, by norm_num [abs_of_nonneg], ?_⟩
  · simp +decide [debWeights, inverseErrorsOf, List.lookup, List.filter]
    norm_num
  · simp +decide [debBlended, debWeights, inverseErrorsOf, List.lookup,
      List.filter]
    norm_num
  · simp +decide [calculate_dynamic_weights, maesOf, errorsAndDays,
      accumErrors, addDay, initErrors, sortDesc, insertDesc, qabs,
      debWeights, debBlended, inverseErrorsOf, sortWDesc, insertWDesc,
      pyround, roundHalfEven, qfloor, List.lookup, List.filter]
    norm_num [insertWDesc, show Int.fdiv 350470 1223 = 286 from by decide]
    simp +decide

/-- C4: the position sizer returns amount 0 whenever the remaining time
to settlement is at most one hour, regardless of the base confidence
amount, book depth, relative-volume flag and remaining daily budget. -/
theorem C4_near_deadline_returns_zero (base depth hours : ℚ)
    (hv : Bool) (budget : ℚ) (h : hours ≤ 1) :
    (calculate_position_size base depth hours hv budget).1 = 0 := by
  simp [calculate_position_size, time_decay, h]

/-- C4 witness at a concrete input. -/
theorem C4_near_deadline_returns_zero_witness :
    (calculate_position_size 10 100 (1/2) true 50).1 = 0 :=
  C4_near_deadline_returns_zero 10 100 (1/2) true 50 (by norm_num)

/-- C8: a missing backing file is read as the empty store (cache
untouched), and a corrupted backing file (parse failure) falls back to
the last good in-memory snapshot whenever one exists; the embedded read
is total, so it never fails the calling cycle. -/
theorem C8_load_history_fallback (st : HistStore) (f : HistFile)
    (hcorrupt : f.parsed = none) (hsnap : st.cache.isEmpty = false) :
    load_history none st = ([], st) ∧
    (load_history (some f) st).1 = st.cache := by
  constructor
  · rfl
  · by_cases hm : (f.mtime == st.mtime) = true
    · simp [load_history, hm, hsnap]
    · simp [load_history, Bool.not_eq_true] at hm ⊢
      simp [hm, hcorrupt, hsnap]

/-- C8 witness at a concrete store and corrupted file. -/
theorem C8_load_history_fallback_witness :
    load_history none ⟨[("nyc", [])], 3⟩ = ([], ⟨[("nyc", [])], 3⟩) ∧
    (load_history (some ⟨7, none⟩) ⟨[("nyc", [])], 3⟩).1
      = [("nyc", [])] :=
  C8_load_history_fallback ⟨[("nyc", [])], 3⟩ ⟨7, none⟩ rfl rfl

theorem assess_liquidity_ask_snd (ob : Orderbook)
    (ha : ob.asks.isEmpty = false) :
    (assess_liquidity ob "ask").2 = depth3 ob.asks := by
  unfold assess_liquidity
  rw [if_pos (rfl : ("ask" : String) = "ask")]
  rw [if_neg (by simp [ha] : ¬ ob.asks.isEmpty = true)]
  dsimp only
  split_ifs <;> rfl

theorem assess_liquidity_bid_snd (ob : Orderbook)
    (hb : ob.bids.isEmpty = false) :
    (assess_liquidity ob "bid").2 = depth3 ob.bids := by
  unfold assess_liquidity
  rw [if_neg (by decide : ¬ (("bid" : String) = "ask"))]
  rw [if_neg (by simp [hb] : ¬ ob.bids.isEmpty = true)]
  dsimp only
  split_ifs <;> rfl

/-- C7: the orderbook sub-signal marks a book tradable exactly when the
bid-ask spread is at most 10 cents and at least one side carries at
least $50 of depth over its top three levels; every untradeable
two-sided book gets confidence forced to 0.1 regardless of its
imbalance, and a one-sided book gets confidence 0. -/
theorem C7_orderbook_tradability_gate (ob : Orderbook) :
    ((ob.bids.isEmpty || ob.asks.isEmpty) = true →
      (analyze ob).tradeable = false ∧ (analyze ob).confidence = 0) ∧
    ((ob.bids.isEmpty || ob.asks.isEmpty) = false →
      ((analyze ob).tradeable = true ↔
        (spreadOf ob ≤ 1/10 ∧
          (depth3 ob.asks ≥ 50 ∨ depth3 ob.bids ≥ 50))) ∧
      ((analyze ob).tradeable = false → (analyze ob).confidence = 1/10)) := by
  constructor
  · intro h
    simp [analyze, h]
  · intro h
    rw [Bool.or_eq_false_iff] at h
    have hfa : (assess_liquidity ob "ask").2 = depth3 ob.asks :=
      assess_liquidity_ask_snd ob h.2
    have hfb : (assess_liquidity ob "bid").2 = depth3 ob.bids :=
      assess_liquidity_bid_snd ob h.1
    constructor
    · simp [analyze, h.1, h.2, hfa, hfb, decide_eq_true_iff]
    · intro ht
      simp only [analyze, h.1, h.2, Bool.or_self, Bool.false_eq_true,
        if_false] at ht ⊢
      simp only [ht, Bool.false_eq_true, if_false]

/-- C7 witness: a concrete two-sided tradable book and a concrete
untradeable one (wide spread) with forced 0.1 confidence. -/
theorem C7_orderbook_tradability_gate_witness :
    (analyze ⟨[⟨45/100, 60⟩], [⟨50/100, 70⟩]⟩).tradeable = true ∧
    (analyze ⟨[⟨20/100, 60⟩], [⟨50/100, 70⟩]⟩).confidence = 1/10 := by
  constructor
  · exact ((C7_orderbook_tradability_gate
        (⟨[⟨45/100, 60⟩], [⟨50/100, 70⟩]⟩ : Orderbook)).2 rfl).1.mpr
      (by constructor
          · show spreadOf _ ≤ 1/10
            norm_num [spreadOf, qabs]
          · left
            show depth3 _ ≥ 50
            norm_num [depth3])
  · refine ((C7_orderbook_tradability_gate
        (⟨[⟨20/100, 60⟩], [⟨50/100, 70⟩]⟩ : Orderbook)).2 rfl).2 ?_
    have h1 := ((C7_orderbook_tradability_gate
      (⟨[⟨20/100, 60⟩], [⟨50/100, 70⟩]⟩ : Orderbook)).2 rfl).1
    by_contra hne
    have ht : (analyze ⟨[⟨20/100, 60⟩], [⟨50/100, 70⟩]⟩).tradeable = true := by
      revert hne
      cases (analyze ⟨[⟨20/100, 60⟩], [⟨50/100, 70⟩]⟩).tradeable <;> simp
    have := h1.mp ht
    rw [show spreadOf ⟨[⟨20/100, 60⟩], [⟨50/100, 70⟩]⟩ = 3/10 by
      norm_num [spreadOf, qabs]] at this
    norm_num at this

/-- C5: `open_position` is refused (state unchanged) when a position
already exists for the same `(market, side)` pair or the balance is
below the requested amount; otherwise it succeeds and debits the
balance by exactly the amount.  Starting from a non-negative balance,
the balance after an open is never negative. -/
theorem C5_open_refusal_and_debit (s : TraderState)
    (market_id city option side : String) (price : ℤ) (amount : ℚ)
    (now : String) (hb : 0 ≤ s.balance) :
    (((s.positions.lookup (market_id ++ "_" ++ side)).isSome = true ∨
        s.balance < amount) →
      open_position s market_id city option price side amount now
        = (false, s)) ∧
    ((s.positions.lookup (market_id ++ "_" ++ side)).isSome = false →
      ¬ s.balance < amount →
      (open_position s market_id city option price side amount now).1
          = true ∧
      (open_position s market_id city option price side amount
          now).2.balance = s.balance - amount) ∧
    0 ≤ (open_position s market_id city option price side amount
        now).2.balance := by
  by_cases hlt : s.balance < amount
  · refine ⟨fun _ => by simp [open_position, hlt], fun _ h => absurd hlt h,
      ?_⟩
    simpa [open_position, hlt] using hb
  · by_cases hdup :
      (s.positions.lookup (market_id ++ "_" ++ side)).isSome = true
    · refine ⟨fun _ => by simp [open_position, hlt, hdup], ?_, ?_⟩
      · intro hf
        rw [hf] at hdup
        cases hdup
      · simpa [open_position, hlt, hdup] using hb
    · refine ⟨?_, fun _ _ => by simp [open_position, hlt, hdup], ?_⟩
      · rintro (h | h)
        · exact absurd h hdup
        · exact absurd h hlt
      · have hle : amount ≤ s.balance := le_of_not_lt hlt
        simpa [open_position, hlt, hdup] using sub_nonneg.mpr hle

/-- C5 witness: opening a fresh position on a $100 balance for $5
succeeds with balance 95, and the balance stays non-negative. -/
theorem C5_open_refusal_and_debit_witness :
    (open_position ⟨[], [], [], 100⟩ "m1" "nyc" "opt" 95 "YES" 5
        "t0").1 = true ∧
    (open_position ⟨[], [], [], 100⟩ "m1" "nyc" "opt" 95 "YES" 5
        "t0").2.balance = 100 - 5 ∧
    0 ≤ (open_position ⟨[], [], [], 100⟩ "m1" "nyc" "opt" 95 "YES" 5
        "t0").2.balance := by
  have h := C5_open_refusal_and_debit ⟨[], [], [], 100⟩ "m1" "nyc" "opt"
    "YES" 95 5 "t0" (by norm_num)
  obtain ⟨h1, h2⟩ := h.2.1 rfl (by norm_num)
  exact ⟨h1, h2, h.2.2⟩

/-- C9 counterexample: an `open_position` request with a NaN
`amount_usd` passes the balance check (IEEE comparisons with NaN are
false), is accepted, and drives the balance — and hence the value
persisted by `_save_data` — to NaN. -/
theorem C9_nan_reaches_persisted_state :
    (open_position_f (.fin 1000) [] "m1" "YES" 95 .nan).1 = true ∧
    (open_position_f (.fin 1000) [] "m1" "YES" 95 .nan).2.1 = .nan ∧
    isFiniteF (persistedBalance
      (open_position_f (.fin 1000) [] "m1" "YES" 95 .nan).2.1) = false := by
  refine ⟨?_, ?_, ?_⟩ <;>
    simp [open_position_f, flt, fsub, persistedBalance, roundF2,
      isFiniteF]

/-- C9 amended: a `+∞` amount is refused by the balance check and
leaves the balance untouched, but a NaN amount passes the check on a
fresh position id, the open succeeds, and the persisted balance becomes
NaN — non-finite results are not filtered before persistence. -/
theorem C9_nonfinite_amounts_amended (q : ℚ) (keys : List String)
    (mid side : String) (price : ℤ)
    (hfresh : keys.contains (mid ++ "_" ++ side) = false) :
    open_position_f (.fin q) keys mid side price .pinf
        = (false, .fin q, .fin 0) ∧
    (open_position_f (.fin q) keys mid side price .nan).1 = true ∧
    (open_position_f (.fin q) keys mid side price .nan).2.1 = .nan ∧
    persistedBalance
      (open_position_f (.fin q) keys mid side price .nan).2.1 = .nan := by
  have hnm : (mid ++ "_" ++ side) ∉ keys := by
    simpa using hfresh
  refine ⟨?_, ?_, ?_, ?_⟩ <;>
    simp [open_position_f, flt, fsub, persistedBalance, roundF2, hnm]

/-- C9 amended witness at concrete inputs. -/
theorem C9_nonfinite_amounts_amended_witness :
    open_position_f (.fin 1000) [] "m2" "NO" 40 .pinf
        = (false, .fin 1000, .fin 0) ∧
    persistedBalance
      (open_position_f (.fin 1000) [] "m2" "NO" 40 .nan).2.1 = .nan := by
  have h := C9_nonfinite_amounts_amended 1000 [] "m2" "NO" 40 rfl
  exact ⟨h.1, h.2.2.2⟩

theorem mem_filterGE {x : ℤ × ℚ} :
    ∀ {l : List (ℤ × ℚ)}, x ∈ filterGE l → 1/100 ≤ x.2 := by
  intro l
  induction l with
  | nil => intro h; cases h
  | cons p ps ih =>
    intro h
    rw [filterGE] at h
    by_cases hp : p.2 ≥ 1/100
    · rw [if_pos hp] at h
      rcases List.mem_cons.mp h with h | h
      · rw [h]; exact hp
      · exact ih h
    · rw [if_neg hp] at h
      exact ih h

theorem insertPDesc_snd_sum (x : ℤ × ℚ) (l : List (ℤ × ℚ)) :
    ((insertPDesc x l).map (fun p => p.2)).sum
      = x.2 + (l.map (fun p => p.2)).sum := by
  induction l with
  | nil => simp [insertPDesc]
  | cons y ys ih =>
    rw [insertPDesc]
    by_cases h : x.2 ≥ y.2
    · rw [if_pos h]; simp
    · rw [if_neg h]; simp [ih]; ring

theorem sortPDesc_snd_sum (l : List (ℤ × ℚ)) :
    ((sortPDesc l).map (fun p => p.2)).sum = (l.map (fun p => p.2)).sum := by
  induction l with
  | nil => rfl
  | cons x xs ih =>
    rw [sortPDesc, insertPDesc_snd_sum, ih]
    simp

theorem insertPDesc_length (x : ℤ × ℚ) (l : List (ℤ × ℚ)) :
    (insertPDesc x l).length = l.length + 1 := by
  induction l with
  | nil => rfl
  | cons y ys ih =>
    rw [insertPDesc]
    by_cases h : x.2 ≥ y.2
    · rw [if_pos h]; rfl
    · rw [if_neg h]; simp [ih]

theorem sortPDesc_length (l : List (ℤ × ℚ)) :
    (sortPDesc l).length = l.length := by
  induction l with
  | nil => rfl
  | cons x xs ih =>
    rw [sortPDesc, insertPDesc_length, ih]
    simp

/-- C3 counterexample: with ensemble stats present
(`p10=10, p50=20, p90=35.6`, so `sigma=10`), anchor 20 and observed
maximum 10, all five buckets survive the 1% discard, the top-4 cap
drops one renormalized entry, and the returned probabilities sum to
`19/23 ≠ 1` while the table is nonempty. -/
theorem C3_settlement_sum_counterexample :
    settlementTable (some ⟨10, 20, 178/5⟩) 20 10 .flat ≠ [] ∧
    ((settlementTable (some ⟨10, 20, 178/5⟩) 20 10 .flat).map
      (fun p => p.2)).sum = 19/23 ∧ ((19 : ℚ)/23) ≠ 1 := by
  have hs : settlementTable (some ⟨10, 20, 178/5⟩) 20 10 .flat
      = [(20, 5/21), (19, 100/483), (21, 100/483), (18, 4/23)] := by
    simp +decide only [settlementTable, survivors, rawMasses, filterGE,
      sigmaOf, muOf, normCdf, qabs, qmax, qfloor, List.range,
      List.range.loop, List.map, List.filter]
    norm_num [show Int.fdiv 41 2 = 20 from by decide,
      show Int.fdiv 21 2 = 10 from by decide, filterGE, sortPDesc,
      insertPDesc, List.isEmpty]
  rw [hs]
  refine ⟨by simp, by norm_num, by norm_num⟩

/-- C3 amended: the settlement table is empty when ensemble stats are
absent; when stats are present and at most 4 buckets survive the 1%
discard (at least one surviving), the returned probabilities sum to
exactly 1 — with 5 survivors the top-4 cap makes the sum fall short of
1 by the dropped entry's weight. -/
theorem C3_settlement_sum_amended (st : EnsembleStats)
    (anchor observed : ℚ) (trend : Trend)
    (hne : survivors st anchor observed trend ≠ [])
    (hlen : (survivors st anchor observed trend).length ≤ 4) :
    settlementTable none anchor observed trend = [] ∧
    ((settlementTable (some st) anchor observed trend).map
      (fun p => p.2)).sum = 1 := by
  refine ⟨rfl, ?_⟩
  have hpos : 0 < ((survivors st anchor observed trend).map
      (fun p => p.2)).sum := by
    apply List.sum_pos
    · intro x hx
      rcases List.mem_map.mp hx with ⟨p, hp, rfl⟩
      exact lt_of_lt_of_le (by norm_num) (mem_filterGE hp)
    · simpa using hne
  rw [settlementTable]
  rw [if_neg (by simpa [List.isEmpty_iff] using hne)]
  rw [List.take_of_length_le
    (by rw [sortPDesc_length, List.length_map]; exact hlen)]
  have hmaps : ((survivors st anchor observed trend).map
      (fun p => (p.1, p.2 / ((survivors st anchor observed trend).map
        (fun p => p.2)).sum))).map (fun p => p.2)
      = ((survivors st anchor observed trend).map (fun p => p.2)).map
        (fun x => x / ((survivors st anchor observed trend).map
          (fun p => p.2)).sum) := by
    simp [List.map_map]
  rw [sortPDesc_snd_sum, hmaps, sum_map_div]
  exact div_self (ne_of_gt hpos)

/-- C3 amended witness: with tight stats (`p10=p50=p90=20`, sigma
floored at 0.1), anchor 20, observed 19.6 (so buckets below 20 are
excluded), exactly 3 buckets survive and the table sums to 1. -/
theorem C3_settlement_sum_amended_witness :
    ((settlementTable (some ⟨20, 20, 20⟩) 20 (98/5) .flat).map
      (fun p => p.2)).sum = 1 := by
  have hsv : survivors ⟨20, 20, 20⟩ 20 (98/5) .flat
      = [(20, 5/6), (21, 5/96), (22, 5/416)] := by
    simp +decide only [survivors, rawMasses, filterGE, sigmaOf, muOf,
      normCdf, qabs, qmax, qfloor, List.range, List.range.loop,
      List.map, List.filter]
    norm_num [show Int.fdiv 41 2 = 20 from by decide,
      show Int.fdiv 201 10 = 20 from by decide, filterGE]
  exact (C3_settlement_sum_amended ⟨20, 20, 20⟩ 20 (98/5) .flat
    (by rw [hsv]; simp) (by rw [hsv]; simp)).2

theorem qabs_nonneg (q : ℚ) : 0 ≤ qabs q := by
  unfold qabs
  split_ifs with h
  · linarith
  · linarith

theorem addDay_fst (rec : DayRec) (a : ℚ) (e : String × List ℚ) :
    (match (rec.forecasts.lookup e.1).bind id with
      | some pf => (e.1, e.2 ++ [qabs (pf - a)])
      | none => e).1 = e.1 := by
  cases (rec.forecasts.lookup e.1).bind id <;> rfl

theorem addDay_keys (rec : DayRec) (a : ℚ)
    (errors : List (String × List ℚ)) :
    (addDay rec a errors).map Prod.fst = errors.map Prod.fst := by
  unfold addDay
  rw [List.map_map]
  exact List.map_congr_left (fun e _ => addDay_fst rec a e)

theorem addDay_nonneg (rec : DayRec) (a : ℚ)
    (errors : List (String × List ℚ))
    (h : ∀ e ∈ errors, ∀ x ∈ e.2, 0 ≤ x) :
    ∀ e ∈ addDay rec a errors, ∀ x ∈ e.2, 0 ≤ x := by
  intro e he x hx
  unfold addDay at he
  rcases List.mem_map.mp he with ⟨e0, he0, heq⟩
  cases hcase : (rec.forecasts.lookup e0.1).bind id with
  | none =>
    rw [hcase] at heq
    subst heq
    exact h e0 he0 x hx
  | some pf =>
    rw [hcase] at heq
    subst heq
    rcases List.mem_append.mp hx with hx | hx
    · exact h e0 he0 x hx
    · rcases List.mem_singleton.mp hx with rfl
      exact qabs_nonneg _

theorem accumErrors_keys (cd : CityData) (t lb : ℕ) :
    ∀ (dates : List ℕ) (du : ℕ) (errs : List (String × List ℚ)),
      ((accumErrors cd t lb dates du errs).1).map Prod.fst
        = errs.map Prod.fst := by
  intro dates
  induction dates with
  | nil => intro du errs; rfl
  | cons d rest ih =>
    intro du errs
    rw [accumErrors]
    by_cases hd : d = t
    · rw [if_pos hd]
      exact ih du errs
    · rw [if_neg hd]
      cases hrec : ((cd.lookup d).getD ⟨[], none⟩).actual_high with
      | none => exact ih du errs
      | some a =>
        dsimp only
        by_cases hge : du + 1 ≥ lb
        · rw [if_pos hge]
          exact addDay_keys _ a errs
        · rw [if_neg hge]
          rw [ih (du + 1) (addDay _ a errs)]
          exact addDay_keys _ a errs

theorem accumErrors_nonneg (cd : CityData) (t lb : ℕ) :
    ∀ (dates : List ℕ) (du : ℕ) (errs : List (String × List ℚ)),
      (∀ e ∈ errs, ∀ x ∈ e.2, 0 ≤ x) →
      ∀ e ∈ (accumErrors cd t lb dates du errs).1, ∀ x ∈ e.2, 0 ≤ x := by
  intro dates
  induction dates with
  | nil => intro du errs h; exact h
  | cons d rest ih =>
    intro du errs h
    rw [accumErrors]
    by_cases hd : d = t
    · rw [if_pos hd]
      exact ih du errs h
    · rw [if_neg hd]
      cases hrec : ((cd.lookup d).getD ⟨[], none⟩).actual_high with
      | none => exact ih du errs h
      | some a =>
        dsimp only
        by_cases hge : du + 1 ≥ lb
        · rw [if_pos hge]
          exact addDay_nonneg _ a errs h
        · rw [if_neg hge]
          exact ih (du + 1) _ (addDay_nonneg _ a errs h)

theorem initErrors_keys (cf : Forecasts) :
    (initErrors cf).map Prod.fst = cf.map Prod.fst := by
  unfold initErrors
  rw [List.map_map]
  rfl

theorem initErrors_nonneg (cf : Forecasts) :
    ∀ e ∈ initErrors cf, ∀ x ∈ e.2, 0 ≤ x := by
  intro e he x hx
  unfold initErrors at he
  rcases List.mem_map.mp he with ⟨p, _, rfl⟩
  cases hx

theorem maesOf_keys (errors : List (String × List ℚ)) :
    (maesOf errors).map Prod.fst = errors.map Prod.fst := by
  unfold maesOf
  rw [List.map_map]
  rfl

theorem maesOf_nonneg (errors : List (String × List ℚ))
    (h : ∀ e ∈ errors, ∀ x ∈ e.2, 0 ≤ x) :
    ∀ p ∈ maesOf errors, 0 ≤ p.2 := by
  intro p hp
  unfold maesOf at hp
  rcases List.mem_map.mp hp with ⟨e, he, rfl⟩
  dsimp only
  split_ifs with hemp
  · norm_num
  · exact div_nonneg (List.sum_nonneg (fun x hx => h e he x hx))
      (by exact_mod_cast Nat.zero_le _)

theorem inverseErrorsOf_pos (cf : Forecasts) (maes : List (String × ℚ))
    (h : ∀ p ∈ maes, 0 ≤ p.2) :
    ∀ p ∈ inverseErrorsOf cf maes, 0 < p.2 := by
  intro p hp
  unfold inverseErrorsOf at hp
  rcases List.mem_map.mp hp with ⟨q, hq, rfl⟩
  have hq2 := h q (List.mem_of_mem_filter hq)
  dsimp only
  apply div_pos one_pos
  linarith

theorem inverseErrorsOf_ne_nil (cf : Forecasts) (maes : List (String × ℚ))
    (hnd : (cf.map Prod.fst).Nodup)
    (hkeys : maes.map Prod.fst = cf.map Prod.fst)
    (hm : ∃ p ∈ cf, p.2.isSome) :
    inverseErrorsOf cf maes ≠ [] := by
  obtain ⟨⟨m, v⟩, hmem, hv⟩ := hm
  obtain ⟨v', rfl⟩ := Option.isSome_iff_exists.mp hv
  have hmk : m ∈ maes.map Prod.fst := by
    rw [hkeys]
    exact List.mem_map.mpr ⟨(m, some v'), hmem, rfl⟩
  rcases List.mem_map.mp hmk with ⟨q, hq, hq1⟩
  have hlk : cf.lookup m = some (some v') := lookup_of_mem_nodup hnd hmem
  have hcond : ((cf.lookup q.1).bind id).isSome = true := by
    rw [hq1, hlk]
    rfl
  intro hnil
  unfold inverseErrorsOf at hnil
  rw [List.map_eq_nil_iff] at hnil
  have : q ∈ (maes.filter (fun p => ((cf.lookup p.1).bind id).isSome)) :=
    List.mem_filter.mpr ⟨hq, hcond⟩
  rw [hnil] at this
  cases this

/-- C2: whenever a blend takes the MAE-weighted path (at least 2 valid
historical days found) and at least one model carries a non-null
current forecast, the ensemble weights over the participating models
sum to 1 (exactly in rational arithmetic, hence within 1e-6). -/
theorem C2_ensemble_weights_sum_one (data : HistData) (city : String)
    (cf : Forecasts) (today lookback : ℕ)
    (hnd : (cf.map Prod.fst).Nodup)
    (hdays : 2 ≤ (errorsAndDays data city cf today lookback).2)
    (hm : ∃ p ∈ cf, p.2.isSome) :
    |((debWeights cf (maesOf (errorsAndDays data city cf today
        lookback).1)).map (fun p => p.2)).sum - 1| ≤ 1/1000000 := by
  have hkeys : (maesOf (errorsAndDays data city cf today lookback).1).map
      Prod.fst = cf.map Prod.fst := by
    rw [maesOf_keys]
    unfold errorsAndDays
    rw [accumErrors_keys, initErrors_keys]
  have hnn : ∀ p ∈ maesOf (errorsAndDays data city cf today lookback).1,
      0 ≤ p.2 := by
    apply maesOf_nonneg
    unfold errorsAndDays
    exact accumErrors_nonneg _ _ _ _ _ _ (initErrors_nonneg cf)
  have hpos := inverseErrorsOf_pos cf _ hnn
  have hne := inverseErrorsOf_ne_nil cf _ hnd hkeys hm
  have hsum : 0 < ((inverseErrorsOf cf (maesOf (errorsAndDays data city
      cf today lookback).1)).map (fun p => p.2)).sum := by
    apply List.sum_pos
    · intro x hx
      rcases List.mem_map.mp hx with ⟨p, hp, rfl⟩
      exact hpos p hp
    · simpa using hne
  have hmaps : ((inverseErrorsOf cf (maesOf (errorsAndDays data city cf
      today lookback).1)).map (fun p => (p.1, p.2 /
        ((inverseErrorsOf cf (maesOf (errorsAndDays data city cf today
          lookback).1)).map (fun p => p.2)).sum))).map (fun p => p.2)
      = ((inverseErrorsOf cf (maesOf (errorsAndDays data city cf today
          lookback).1)).map (fun p => p.2)).map (fun x => x /
        ((inverseErrorsOf cf (maesOf (errorsAndDays data city cf today
          lookback).1)).map (fun p => p.2)).sum) := by
    simp [List.map_map]
  unfold debWeights
  rw [hmaps, sum_map_div, div_self (ne_of_gt hsum)]
  norm_num

/-- C2 witness at a concrete two-day history. -/
theorem C2_ensemble_weights_sum_one_witness :
    |((debWeights [("A", some 28), ("B", some 30), ("C", some 29)]
        (maesOf (errorsAndDays
          [("cityW", [(1, ⟨[("A", some 21), ("B", some 23),
                            ("C", some 22)], some 20⟩),
                      (2, ⟨[("A", some 21), ("B", some 23),
                            ("C", some 22)], some 20⟩)])]
          "cityW" [("A", some 28), ("B", some 30), ("C", some 29)]
          9 7).1)).map (fun p => p.2)).sum - 1| ≤ 1/1000000 :=
  C2_ensemble_weights_sum_one
    [("cityW", [(1, ⟨[("A", some 21), ("B", some 23), ("C", some 22)],
                    some 20⟩),
                (2, ⟨[("A", some 21), ("B", some 23), ("C", some 22)],
                    some 20⟩)])]
    "cityW" [("A", some 28), ("B", some 30), ("C", some 29)] 9 7
    (by decide) (by decide) (by decide)

theorem lookup_isSome_of_mem_keys {β : Type} :
    ∀ {l : List (String × β)} {k : String},
      k ∈ l.map Prod.fst → (l.lookup k).isSome = true := by
  intro l
  induction l with
  | nil => intro k h; cases h
  | cons hd tl ih =>
    intro k h
    rw [List.map_cons, List.mem_cons] at h
    by_cases hk : (k == hd.1) = true
    · simp [List.lookup, hk]
    · rcases h with h | h
      · rw [h] at hk
        simp at hk
      · simpa [List.lookup, hk] using ih h

theorem stepPos_key (cur : PriceSnapshot) (now : String)
    (p : String × Position) : (stepPos cur now p).1.1 = p.1 := by
  unfold stepPos
  dsimp only
  by_cases h : p.2.status ≠ "OPEN"
  · rw [if_pos h]
  · rw [if_neg h]
    cases List.lookup p.2.market_id cur with
    | none => rfl
    | some po =>
      dsimp only
      split_ifs <;> rfl

theorem stepPos_midside (cur : PriceSnapshot) (now : String)
    (p : String × Position) :
    (stepPos cur now p).1.2.market_id = p.2.market_id ∧
    (stepPos cur now p).1.2.side = p.2.side := by
  unfold stepPos
  dsimp only
  by_cases h : p.2.status ≠ "OPEN"
  · rw [if_pos h]
    exact ⟨rfl, rfl⟩
  · rw [if_neg h]
    cases List.lookup p.2.market_id cur with
    | none => exact ⟨rfl, rfl⟩
    | some po =>
      dsimp only
      split_ifs <;> exact ⟨rfl, rfl⟩

theorem update_pnl_keys_consistent (s : TraderState) (cur : PriceSnapshot)
    (now : String)
    (hkeys : ∀ q ∈ s.positions, q.1 = q.2.market_id ++ "_" ++ q.2.side) :
    ∀ q ∈ (update_pnl s cur now).positions,
      q.1 = q.2.market_id ++ "_" ++ q.2.side := by
  intro q hq
  unfold update_pnl at hq
  dsimp only at hq
  rcases List.mem_map.mp hq with ⟨y, hy, rfl⟩
  have hy2 := List.mem_of_mem_filter hy
  rcases List.mem_map.mp hy2 with ⟨q0, hq0, rfl⟩
  rw [stepPos_key, (stepPos_midside cur now q0).1,
    (stepPos_midside cur now q0).2]
  exact hkeys q0 hq0

theorem update_pnl_keys_subset (s : TraderState) (cur : PriceSnapshot)
    (now : String) :
    ∀ k ∈ ((update_pnl s cur now).positions).map Prod.fst,
      k ∈ s.positions.map Prod.fst := by
  intro k hk
  unfold update_pnl at hk
  dsimp only at hk
  rcases List.mem_map.mp hk with ⟨y, hy, rfl⟩
  rcases List.mem_map.mp hy with ⟨q0, hq0, rfl⟩
  rcases List.mem_map.mp (List.mem_of_mem_filter hq0) with ⟨q1, hq1, rfl⟩
  rw [stepPos_key]
  exact List.mem_map.mpr ⟨q1, hq1, rfl⟩

theorem update_pnl_no_reclose (s' : TraderState) (pid mid side : String)
    (cur2 : PriceSnapshot) (now2 : String)
    (hkeys : ∀ q ∈ s'.positions, q.1 = q.2.market_id ++ "_" ++ q.2.side)
    (hpid : pid = mid ++ "_" ++ side)
    (hnone : s'.positions.lookup pid = none) :
    (update_pnl s' cur2 now2).positions.lookup pid = none ∧
    histCount (update_pnl s' cur2 now2) mid side = histCount s' mid side := by
  have hnotmem : pid ∉ s'.positions.map Prod.fst := by
    intro hmem
    have := lookup_isSome_of_mem_keys hmem
    rw [hnone] at this
    cases this
  constructor
  · apply lookup_eq_none_of_not_mem
    intro hmem
    exact hnotmem (update_pnl_keys_subset s' cur2 now2 pid hmem)
  · unfold update_pnl histCount
    dsimp only
    rw [List.filter_append, List.length_append]
    have hzero : (((((s'.positions.map (stepPos cur2 now2)).filter
        (fun q => q.2)).map (fun q => q.1.2)).filter
        (fun p => p.market_id == mid && p.side == side)).length) = 0 := by
      rw [List.length_eq_zero, List.filter_eq_nil_iff]
      intro p hp
      rcases List.mem_map.mp hp with ⟨y, hy, rfl⟩
      rcases List.mem_map.mp (List.mem_of_mem_filter hy) with ⟨q0, hq0, rfl⟩
      intro hmatch
      rw [Bool.and_eq_true, beq_iff_eq, beq_iff_eq] at hmatch
      have hm1 := (stepPos_midside cur2 now2 q0).1
      have hm2 := (stepPos_midside cur2 now2 q0).2
      have hq0key := hkeys q0 hq0
      have : q0.1 = pid := by
        rw [hq0key, ← hm1, ← hm2, hmatch.1, hmatch.2, hpid]
      exact hnotmem (this ▸ List.mem_map.mpr ⟨q0, hq0, rfl⟩)
    rw [hzero]
    rfl

theorem finishedOf_no_match (cur : PriceSnapshot) (now : String)
    (l : List (String × Position)) (mid side pid : String)
    (hpid : pid = mid ++ "_" ++ side)
    (hk : ∀ q ∈ l, q.1 = q.2.market_id ++ "_" ++ q.2.side)
    (hne : ∀ q ∈ l, q.1 ≠ pid) :
    (finishedOf cur now l).filter
      (fun p => p.market_id == mid && p.side == side) = [] := by
  rw [List.filter_eq_nil_iff]
  intro p hp
  unfold finishedOf at hp
  rcases List.mem_map.mp hp with ⟨y, hy, rfl⟩
  rcases List.mem_map.mp (List.mem_of_mem_filter hy) with ⟨q, hq, rfl⟩
  intro hmatch
  rw [Bool.and_eq_true, beq_iff_eq, beq_iff_eq] at hmatch
  apply hne q hq
  rw [hk q hq, ← (stepPos_midside cur now q).1,
    ← (stepPos_midside cur now q).2, hmatch.1, hmatch.2, hpid]

/-- C1: for every OPEN position `(pid, pos)` of the ledger whose market
is in the snapshot and whose side-adjusted price `cp` reaches 99.5 or
0.5, `update_pnl` closes it exactly once — also when other positions
settle in the same pass: it leaves the open map, its CLOSED record (at
price `cp`, same shares) enters history exactly once, the balance
credit decomposes as the other closing positions' values plus exactly
`shares * cp/100` for this one, one SELL trade is appended for it, and
no later `update_pnl` pass can close it again (its id stays out of the
open map and its history count stays fixed). -/
theorem C1_mark_to_market_closes_once (s : TraderState)
    (cur : PriceSnapshot) (now : String) (pid : String) (pos : Position)
    (po : Option ℚ) (cp : ℚ)
    (hkeys : ∀ q ∈ s.positions, q.1 = q.2.market_id ++ "_" ++ q.2.side)
    (hnd : (s.positions.map Prod.fst).Nodup)
    (hmem : (pid, pos) ∈ s.positions)
    (hopen : pos.status = "OPEN")
    (hsnap : cur.lookup pos.market_id = some po)
    (hcp : adjPrice pos.side (po.getD 50) = cp)
    (hthresh : cp ≥ 995/10 ∨ cp ≤ 1/2) :
    (update_pnl s cur now).positions.lookup pid = none ∧
    (stepPos cur now (pid, pos)).1.2.status = "CLOSED" ∧
    (stepPos cur now (pid, pos)).1.2.current_price = cp ∧
    (stepPos cur now (pid, pos)).1.2.shares = pos.shares ∧
    histCount (update_pnl s cur now) pos.market_id pos.side
      = histCount s pos.market_id pos.side + 1 ∧
    (∃ l1 l2, s.positions = l1 ++ (pid, pos) :: l2 ∧
      (update_pnl s cur now).history
        = s.history ++ (finishedOf cur now l1
            ++ (stepPos cur now (pid, pos)).1.2
              :: finishedOf cur now l2) ∧
      (update_pnl s cur now).balance
        = s.balance + (finValueSum cur now l1
            + (pos.shares * (cp / 100) + finValueSum cur now l2)) ∧
      (update_pnl s cur now).trades
        = s.trades ++ ((finishedOf cur now l1).map sellTrade
            ++ sellTrade (stepPos cur now (pid, pos)).1.2
              :: (finishedOf cur now l2).map sellTrade)) ∧
    ∀ (cur2 : PriceSnapshot) (now2 : String),
      (update_pnl (update_pnl s cur now) cur2 now2).positions.lookup pid
        = none ∧
      histCount (update_pnl (update_pnl s cur now) cur2 now2)
          pos.market_id pos.side
        = histCount (update_pnl s cur now) pos.market_id pos.side := by
  have hstep : stepPos cur now (pid, pos)
      = ((pid, { pos with
          current_price := cp,
          pnl_usd := pyround (pos.shares * (cp / 100) - pos.cost_usd) 2,
          pnl_pct := pyround (if pos.cost_usd > 0
            then (pos.shares * (cp / 100) - pos.cost_usd) / pos.cost_usd
              * 100
            else 0) 2,
          status := "CLOSED", closed_at := some now }), true) := by
    unfold stepPos
    dsimp only
    rw [if_neg (by simp [hopen])]
    rw [hsnap]
    dsimp only
    rw [hcp]
    rw [if_pos hthresh]
  have hsnd : (stepPos cur now (pid, pos)).2 = true := by rw [hstep]
  have hpid : pid = pos.market_id ++ "_" ++ pos.side := hkeys _ hmem
  obtain ⟨l1, l2, hsplit⟩ := List.append_of_mem hmem
  have hnd' := hnd
  rw [hsplit, List.map_append, List.map_cons] at hnd'
  rcases List.nodup_append.mp hnd' with ⟨hn1, hn2, hdisj⟩
  have hker : ∀ q ∈ l1 ++ l2, q.1 ≠ pid := by
    intro q hq
    rcases List.mem_append.mp hq with hq | hq
    · intro he
      exact hdisj (List.mem_map.mpr ⟨q, hq, he⟩) (List.mem_cons_self _ _)
    · intro he
      exact (List.nodup_cons.mp hn2).1
        (he ▸ List.mem_map.mpr ⟨q, hq, rfl⟩)
  have hkl1 : ∀ q ∈ l1, q.1 = q.2.market_id ++ "_" ++ q.2.side :=
    fun q hq => hkeys q (by rw [hsplit]; exact List.mem_append_left _ hq)
  have hkl2 : ∀ q ∈ l2, q.1 = q.2.market_id ++ "_" ++ q.2.side :=
    fun q hq => hkeys q (by
      rw [hsplit]
      exact List.mem_append_right _ (List.mem_cons_of_mem _ hq))
  have hmap : s.positions.map (stepPos cur now)
      = l1.map (stepPos cur now)
        ++ stepPos cur now (pid, pos) :: l2.map (stepPos cur now) := by
    rw [hsplit, List.map_append, List.map_cons]
  have hfin : (s.positions.map (stepPos cur now)).filter (fun q => q.2)
      = (l1.map (stepPos cur now)).filter (fun q => q.2)
        ++ stepPos cur now (pid, pos)
          :: (l2.map (stepPos cur now)).filter (fun q => q.2) := by
    rw [hmap, List.filter_append, List.filter_cons]
    simp [hsnd]
  have hkept : (s.positions.map (stepPos cur now)).filter (fun q => !q.2)
      = (l1.map (stepPos cur now)).filter (fun q => !q.2)
        ++ (l2.map (stepPos cur now)).filter (fun q => !q.2) := by
    rw [hmap, List.filter_append, List.filter_cons]
    simp [hsnd]
  have hposns : (update_pnl s cur now).positions
      = ((l1.map (stepPos cur now)).filter (fun q => !q.2)).map
          (fun q => q.1)
        ++ ((l2.map (stepPos cur now)).filter (fun q => !q.2)).map
          (fun q => q.1) := by
    show ((s.positions.map (stepPos cur now)).filter (fun q => !q.2)).map
        (fun q => q.1) = _
    rw [hkept, List.map_append]
  have hhist : (update_pnl s cur now).history
      = s.history ++ (finishedOf cur now l1
          ++ (stepPos cur now (pid, pos)).1.2
            :: finishedOf cur now l2) := by
    show s.history ++ ((s.positions.map (stepPos cur now)).filter
        (fun q => q.2)).map (fun q => q.1.2) = _
    rw [hfin, List.map_append, List.map_cons]
    rfl
  have hbal : (update_pnl s cur now).balance
      = s.balance + (finValueSum cur now l1
          + (pos.shares * (cp / 100) + finValueSum cur now l2)) := by
    show s.balance + ((((s.positions.map (stepPos cur now)).filter
        (fun q => q.2)).map (fun q => q.1.2)).map finValue).sum = _
    rw [hfin, List.map_append, List.map_cons, List.map_append,
      List.map_cons, List.sum_append, List.sum_cons, hstep]
    unfold finValueSum finishedOf
    simp [finValue]
  have htr : (update_pnl s cur now).trades
      = s.trades ++ ((finishedOf cur now l1).map sellTrade
          ++ sellTrade (stepPos cur now (pid, pos)).1.2
            :: (finishedOf cur now l2).map sellTrade) := by
    show s.trades ++ (((s.positions.map (stepPos cur now)).filter
        (fun q => q.2)).map (fun q => q.1.2)).map sellTrade = _
    rw [hfin, List.map_append, List.map_cons, List.map_append,
      List.map_cons]
    rfl
  have hnone : (update_pnl s cur now).positions.lookup pid = none := by
    rw [hposns]
    apply lookup_eq_none_of_not_mem
    intro hmem2
    rw [List.map_append, List.mem_append] at hmem2
    rcases hmem2 with h | h <;>
    · rw [List.map_map] at h
      rcases List.mem_map.mp h with ⟨y, hy, hye⟩
      rcases List.mem_map.mp (List.mem_of_mem_filter hy) with ⟨q, hq, rfl⟩
      rw [show ((Prod.fst ∘ fun q => q.1) (stepPos cur now q))
          = (stepPos cur now q).1.1 from rfl, stepPos_key] at hye
      first
      | exact hker q (List.mem_append_left _ hq) hye
      | exact hker q (List.mem_append_right _ hq) hye
  have hcnt : histCount (update_pnl s cur now) pos.market_id pos.side
      = histCount s pos.market_id pos.side + 1 := by
    unfold histCount
    rw [hhist, List.filter_append, List.filter_append, List.filter_cons]
    have hm : ((stepPos cur now (pid, pos)).1.2.market_id
        == pos.market_id
        && (stepPos cur now (pid, pos)).1.2.side == pos.side) = true := by
      rw [hstep]
      simp
    rw [if_pos hm]
    rw [finishedOf_no_match cur now l1 pos.market_id pos.side pid hpid
      hkl1 (fun q hq => hker q (List.mem_append_left _ hq))]
    rw [finishedOf_no_match cur now l2 pos.market_id pos.side pid hpid
      hkl2 (fun q hq => hker q (List.mem_append_right _ hq))]
    simp [List.length_append]
  refine ⟨hnone, by rw [hstep], by rw [hstep], by rw [hstep], hcnt,
    ⟨l1, l2, hsplit, hhist, hbal, htr⟩, ?_⟩
  intro cur2 now2
  have hk' : ∀ q ∈ (update_pnl s cur now).positions,
      q.1 = q.2.market_id ++ "_" ++ q.2.side :=
    update_pnl_keys_consistent s cur now hkeys
  exact update_pnl_no_reclose (update_pnl s cur now) pid pos.market_id
    pos.side cur2 now2 hk' hpid hnone

/-- C1 witness: a YES position marked at 99.6¢ leaves the open map,
enters history exactly once as CLOSED, and the balance is credited with
`shares × 0.996`. -/
theorem C1_mark_to_market_closes_once_witness :
    (update_pnl
        ⟨[("m1_YES", ⟨"m1", "nyc", "opt", "YES", 90, 10, 9, 90, 0, 0,
          "OPEN", "t0", none⟩)], [], [], 100⟩
        [("m1", some (996/10))] "t1").positions.lookup "m1_YES" = none ∧
    (stepPos [("m1", some (996/10))] "t1"
        ("m1_YES", ⟨"m1", "nyc", "opt", "YES", 90, 10, 9, 90, 0, 0,
          "OPEN", "t0", none⟩)).1.2.status = "CLOSED" ∧
    histCount (update_pnl
        ⟨[("m1_YES", ⟨"m1", "nyc", "opt", "YES", 90, 10, 9, 90, 0, 0,
          "OPEN", "t0", none⟩)], [], [], 100⟩
        [("m1", some (996/10))] "t1") "m1" "YES"
      = histCount ⟨[("m1_YES", ⟨"m1", "nyc", "opt", "YES", 90, 10, 9,
          90, 0, 0, "OPEN", "t0", none⟩)], [], [], 100⟩ "m1" "YES" + 1 ∧
    (update_pnl
        ⟨[("m1_YES", ⟨"m1", "nyc", "opt", "YES", 90, 10, 9, 90, 0, 0,
          "OPEN", "t0", none⟩)], [], [], 100⟩
        [("m1", some (996/10))] "t1").balance
      = 100 + 10 * ((996/10) / 100) := by
  have h := C1_mark_to_market_closes_once
    ⟨[("m1_YES", ⟨"m1", "nyc", "opt", "YES", 90, 10, 9, 90, 0, 0,
      "OPEN", "t0", none⟩)], [], [], 100⟩
    [("m1", some (996/10))] "t1" "m1_YES"
    ⟨"m1", "nyc", "opt", "YES", 90, 10, 9, 90, 0, 0, "OPEN", "t0", none⟩
    (some (996/10)) (996/10)
    (by intro q hq
        rcases List.mem_singleton.mp hq with rfl
        rfl)
    (by simp)
    (List.mem_singleton.mpr rfl)
    rfl rfl rfl
    (by left; norm_num)
  refine ⟨h.1, h.2.1, h.2.2.2.2.1, ?_⟩
  obtain ⟨l1, l2, hsp, _, hb, _⟩ := h.2.2.2.2.2.1
  have hl1 : l1 = [] := by
    cases l1 with
    | nil => rfl
    | cons a t =>
      have := congrArg List.length hsp
      simp at this
  subst hl1
  have hl2 : l2 = [] := by simpa using hsp
  subst hl2
  rw [hb, show finValueSum [("m1", some (996/10))] "t1" [] = 0 from rfl]
  ring

end PolyWeather
